import Mathlib

/-!
Verification of the station-master daily planning core
(`src/components/DailyPlanning.tsx`, lane-aware version, plus the rotation
predicate of `src/utils/stationRotation.ts`).

The embedding models:
* the assignment snapshot (`Assignment` values, as kept in the `assignments`
  React state),
* the records store (`daily_assignments` and `work_history` tables),
* the greedy planner `distributeEmployees`,
* the interactive move path `handleDrop` / `performMove`,
* the overuse heuristic of `handleDrop`,
* the per-worker history counting of `getEmployeeHistory`,
* the rotation predicate `canAssignToStation`.

JavaScript `Array.prototype.sort` with a numeric comparator is a stable sort;
it is embedded as a stable insertion sort on the comparator's key
(`sortAscK` / `sortDescK`), and the planner is additionally parameterised by
the sort implementation so that independence from the choice of stable sort
can be stated.
-/

namespace StationMaster

/-- One entry of the daily assignment snapshot (the `Assignment` interface). -/
structure Assignment where
  employeeId : String
  employeeName : String
  station : String
  lane : Option Nat
deriving DecidableEq, Repr

/-- One persisted row of `daily_assignments` or `work_history`. -/
structure Row where
  employeeId : String
  station : String
  lane : Option Nat
  date : String
deriving DecidableEq, Repr

/-- The records store: the two tables the planning core writes. -/
structure DB where
  daily_assignments : List Row
  work_history : List Row
deriving DecidableEq, Repr

/-- In-memory snapshot plus the records store. -/
structure PlanState where
  assignments : List Assignment
  db : DB
deriving DecidableEq, Repr

/-- The fixed station list of `DailyPlanning.tsx`. -/
def STATIONS : List String :=
  ["Plock", "Autoplock", "Pack", "Auto pack", "KM", "Decating", "In/Ut", "Rep", "FL"]

/-! ### Stable sorting (JS `Array.prototype.sort` with a numeric comparator) -/

/-- Insert into an ascending-by-key list, before the first element of
key not smaller, so that earlier elements keep priority among equal keys. -/
def insertAsc (k : String → Int) (x : String) : List String → List String
  | [] => [x]
  | y :: ys => if k x ≤ k y then x :: y :: ys else y :: insertAsc k x ys

/-- Stable ascending insertion sort by an integer key: the embedding of
`.sort((a, b) => key(a) - key(b))`. -/
def sortAscK (k : String → Int) : List String → List String
  | [] => []
  | x :: xs => insertAsc k x (sortAscK k xs)

/-- Stable descending sort by an integer key: the embedding of
`.sort((a, b) => key(b) - key(a))`. -/
def sortDescK (k : String → Int) (l : List String) : List String :=
  sortAscK (fun x => -(k x)) l

/-- The type of a keyed sorting routine over id lists. -/
abbrev SortFn := (String → Int) → List String → List String

/-! ### History counting (`getEmployeeHistory`) and the overuse heuristic -/

/-- One `stationCount[item.station] = (stationCount[item.station] || 0) + 1`
update of `getEmployeeHistory`; a fresh key is appended (JS object insertion
order). -/
def bumpStation : List (String × Nat) → String → List (String × Nat)
  | [], st => [(st, 1)]
  | (key, v) :: rest, st =>
    if key = st then (key, v + 1) :: rest else (key, v) :: bumpStation rest st

/-- The per-station visit counting of `getEmployeeHistory`, applied to the
stations of the worker's history rows inside the window. -/
def countStations (rows : List String) : List (String × Nat) :=
  rows.foldl bumpStation []

/-- `history[toStation] || 0` of `handleDrop`. -/
def stationCountOf (hist : List (String × Nat)) (st : String) : Nat :=
  (hist.lookup st).getD 0

/-- `Object.values(history).reduce((a, b) => a + b, 0) / Object.keys(history).length || 0`
of `handleDrop`; the `|| 0` turns the `NaN` from an empty map into `0`. -/
def avgCount (hist : List (String × Nat)) : ℚ :=
  if hist.length = 0 then 0
  else (hist.map (fun p => (p.2 : ℚ))).sum / (hist.length : ℚ)

/-- `stationCount > avgCount * 1.5 && stationCount > 5` of `handleDrop`. -/
def overuseWarns (toStation : String) (hist : List (String × Nat)) : Bool :=
  decide (avgCount hist * (3 / 2) < (stationCountOf hist toStation : ℚ)) &&
  decide (5 < stationCountOf hist toStation)

/-- The spec's average: the mean of the history map's values restricted to
stations with a non-zero recorded visit, `0` when there are none. -/
def avgNonzeroSpec (hist : List (String × Nat)) : ℚ :=
  if (hist.filter (fun p => !(p.2 == 0))).length = 0 then 0
  else ((hist.filter (fun p => !(p.2 == 0))).map (fun p => (p.2 : ℚ))).sum
        / ((hist.filter (fun p => !(p.2 == 0))).length : ℚ)

/-- The spec's overuse rule: warn iff `count > 1.5 * avg` and `count > 5`,
with the zero-excluding average. -/
def overuseWarnsSpec (toStation : String) (hist : List (String × Nat)) : Bool :=
  decide ((3 / 2 : ℚ) * avgNonzeroSpec hist < (stationCountOf hist toStation : ℚ)) &&
  decide (5 < stationCountOf hist toStation)

/-! ### Rotation predicate -/

/-- Modelled from the spec: the rotation predicate `canAssignToStation` of
`src/utils/stationRotation.ts` is not among the sources (only its unit tests
are). Per the spec it "returns false only when
`lastStationOf[workerId] == candidateStation`; a worker absent from the map,
or whose last station is null, is permitted everywhere". -/
def canAssignToStation (workerId candidate : String)
    (lastStations : List (String × Option String)) : Bool :=
  match lastStations.lookup workerId with
  | some (some s) => !(s == candidate)
  | some none => true
  | none => true

/-- Modelled from the spec: the derived helper `getAvailableStationsForEmployee`
of `src/utils/stationRotation.ts` filters the station list by the predicate. -/
def getAvailableStationsForEmployee (workerId : String) (allStations : List String)
    (lastStations : List (String × Option String)) : List String :=
  allStations.filter (fun s => canAssignToStation workerId s lastStations)

/-! ### The planner `distributeEmployees` -/

/-- `histories[worker][station] || 0`: the comparator key of the per-station
worker sort; a missing entry counts as zero. -/
def histKey (histories : String → List (String × Nat)) (station id : String) : Int :=
  ((((histories id).lookup station).getD 0 : Nat) : Int)

/-- The per-station candidate list: workers still unassigned, stably sorted
ascending by their visit count at the station
(`employeeHistories.filter(...).sort(...)`). -/
def availableForW (sortW : SortFn) (histories : String → List (String × Nat))
    (selected assigned : List String) (station : String) : List String :=
  sortW (histKey histories station) (selected.filter (fun id => !(assigned.contains id)))

/-- `employees.find((e) => e.id === employee.id)?.name || ""`. -/
def lookupName (employees : List (String × String)) (id : String) : String :=
  ((employees.find? (fun e => e.1 == id)).map (fun e => e.2)).getD ""

/-- The snapshot entry pushed for one planner placement. -/
def mkAssign (employees : List (String × String)) (station id : String) : Assignment :=
  { employeeId := id, employeeName := lookupName employees id, station := station,
    lane := none }

/-- One station of the planner loop: take the first `needed` (or fewer) of the
available workers and mark them assigned. -/
def distStepW (sortW : SortFn) (selected : List String) (needs : String → Int)
    (histories : String → List (String × Nat)) (employees : List (String × String))
    (st : List Assignment × List String) (station : String) :
    List Assignment × List String :=
  let avail := availableForW sortW histories selected st.2 station
  let taken := avail.take (needs station).toNat
  (st.1 ++ taken.map (mkAssign employees station), st.2 ++ taken)

/-- The station processing order: drop `FL`, drop stations with need `≤ 0`,
stably sort the rest by descending need. -/
def sortedStationsForW (sortS : SortFn) (needs : String → Int) : List String :=
  sortS (fun s => needs s)
    ((STATIONS.filter (fun s => !(s == "FL"))).filter (fun s => decide (0 < needs s)))

/-- All placements of one planner run, in insertion order (the loop of
`distributeEmployees`, without the `FL` manual entry). -/
def distributePlacementsW (sortW sortS : SortFn) (selected : List String)
    (needs : String → Int) (histories : String → List (String × Nat))
    (employees : List (String × String)) : List Assignment :=
  ((sortedStationsForW sortS needs).foldl
      (distStepW sortW selected needs histories employees) ([], [])).1

/-- The persisted row for one placement (both tables receive the same row). -/
def rowOf (today : String) (a : Assignment) : Row :=
  { employeeId := a.employeeId, station := a.station, lane := a.lane, date := today }

/-- The new `assignments` snapshot of a planner run: the placements, plus the
verbatim `FL` manual entry when the free text is non-blank. -/
def distributeSnapshotW (sortW sortS : SortFn) (selected : List String)
    (needs : String → Int) (histories : String → List (String × Nat))
    (employees : List (String × String)) (flManual : String) : List Assignment :=
  let placements := distributePlacementsW sortW sortS selected needs histories employees
  if flManual.trim ≠ "" then
    placements ++
      [{ employeeId := "manual", employeeName := flManual, station := "FL", lane := none }]
  else placements

/-- A full `distributeEmployees` run over a state. An empty selection is
rejected before any mutation (`false` flag, state unchanged). Otherwise the
`daily_assignments` rows of the date are deleted and one row per placement is
inserted into each table; `work_history` rows are only ever inserted. -/
def distributeRunW (sortW sortS : SortFn) (selected : List String) (needs : String → Int)
    (histories : String → List (String × Nat)) (employees : List (String × String))
    (flManual today : String) (st : PlanState) : PlanState × Bool :=
  if selected.length = 0 then (st, false)
  else
    let placements := distributePlacementsW sortW sortS selected needs histories employees
    ({ assignments := distributeSnapshotW sortW sortS selected needs histories employees flManual,
       db := { daily_assignments :=
                 st.db.daily_assignments.filter (fun r => !(r.date == today))
                   ++ placements.map (rowOf today),
               work_history := st.db.work_history ++ placements.map (rowOf today) } },
     true)

/-- The planner instantiated with the stable sorts. -/
def availableFor := availableForW sortAscK

def sortedStationsFor := sortedStationsForW sortDescK

def distributePlacements := distributePlacementsW sortAscK sortDescK

def distributeSnapshot := distributeSnapshotW sortAscK sortDescK

def distributeRun := distributeRunW sortAscK sortDescK

/-! ### The move path `performMove` / `handleDrop` -/

/-- `performMove`: remove the dragged entry from the snapshot, append it at
the destination, and mirror the change in both tables. The table deletions
filter on employee, date and source station only (not lane), exactly as the
source's `.eq` chains do. -/
def performMoveRun (dragged : Assignment) (toStation : String) (toLane : Option Nat)
    (today : String) (st : PlanState) : PlanState :=
  let keep : Assignment → Bool := fun a =>
    !(a.employeeId == dragged.employeeId && a.station == dragged.station &&
      decide (a.lane = dragged.lane))
  let keepRow : Row → Bool := fun r =>
    !(r.employeeId == dragged.employeeId && r.date == today &&
      r.station == dragged.station)
  let newRow : Row :=
    { employeeId := dragged.employeeId, station := toStation, lane := toLane, date := today }
  { assignments := st.assignments.filter keep
      ++ [{ dragged with station := toStation, lane := toLane }],
    db := { daily_assignments := st.db.daily_assignments.filter keepRow ++ [newRow],
            work_history := st.db.work_history.filter keepRow ++ [newRow] } }

/-- Outcome of a drop gesture. -/
inductive DropOutcome where
  | cancelled : DropOutcome
  | warned : Nat → DropOutcome
  | moved : DropOutcome
deriving DecidableEq, Repr

/-- `handleDrop`: a drop on the dragged entry's own position is discarded;
otherwise the overuse heuristic may hold the move pending confirmation
(`warned`, state unchanged); otherwise `performMove` applies at once. -/
def handleDropRun (dragged : Option Assignment) (hist : List (String × Nat))
    (toStation : String) (toLane : Option Nat) (today : String) (st : PlanState) :
    DropOutcome × PlanState :=
  match dragged with
  | none => (DropOutcome.cancelled, st)
  | some a =>
    if a.station = toStation ∧ a.lane = toLane then (DropOutcome.cancelled, st)
    else if overuseWarns toStation hist then
      (DropOutcome.warned (stationCountOf hist toStation), st)
    else (DropOutcome.moved, performMoveRun a toStation toLane today st)

/-! ### Derived notions the claims speak about -/

/-- The mirror invariant of the spec: on date `d`, the set of `work_history`
placements equals the set of `daily_assignments` placements. -/
def mirror (db : DB) (d : String) : Prop :=
  ∀ e s (l : Option Nat),
    (⟨e, s, l, d⟩ : Row) ∈ db.work_history ↔ (⟨e, s, l, d⟩ : Row) ∈ db.daily_assignments

/-- How many snapshot entries carry a given real worker id (the free-text `FL`
entry is exempt: it is not a worker identifier). -/
def realCount (l : List Assignment) (id : String) : Nat :=
  l.countP (fun a => a.employeeId == id && !(a.station == "FL"))

/-- Each real worker id appears in at most one snapshot entry. -/
def atMostOnce (l : List Assignment) : Prop :=
  ∀ id, realCount l id ≤ 1

/-- A sorting routine that ascends on the key and preserves the relative order
of equal-key elements (what ECMAScript guarantees for
`.sort((a, b) => key(a) - key(b))`). -/
def IsStableAscSort (f : SortFn) : Prop :=
  ∀ k l, ((f k l).Pairwise (fun a b => k a ≤ k b)) ∧
    ∀ c, (f k l).filter (fun y => decide (k y = c)) = l.filter (fun y => decide (k y = c))

/-- A sorting routine that descends on the key and preserves the relative
order of equal-key elements. -/
def IsStableDescSort (f : SortFn) : Prop :=
  ∀ k l, ((f k l).Pairwise (fun a b => k b ≤ k a)) ∧
    ∀ c, (f k l).filter (fun y => decide (k y = c)) = l.filter (fun y => decide (k y = c))

/-! ### Concrete instances used by the counterexamples and witnesses -/

def needsStarve : String → Int := fun s => if s = "Pack" then 3 else if s = "Plock" then 1 else 0

def emptyPlan : PlanState := ⟨[], ⟨[], []⟩⟩

def needsPlockOnly : String → Int := fun s => if s = "Plock" then 1 else 0

def needsPackOnly : String → Int := fun s => if s = "Pack" then 1 else 0

def demoState : PlanState := ⟨[⟨"w", "W", "Plock", none⟩], ⟨[], []⟩⟩

/-! ### Sort lemmas -/

theorem insertAsc_perm (k : String → Int) (x : String) (l : List String) :
    (insertAsc k x l).Perm (x :: l) := by
  induction l with
  | nil => simp [insertAsc]
  | cons y ys ih =>
    by_cases h : k x ≤ k y
    · simp [insertAsc, h]
    · simp only [insertAsc, if_neg h]
      exact (ih.cons y).trans (List.Perm.swap x y ys)

theorem sortAscK_perm (k : String → Int) (l : List String) : (sortAscK k l).Perm l := by
  induction l with
  | nil => simp [sortAscK]
  | cons x xs ih => exact (insertAsc_perm k x _).trans (ih.cons x)

theorem insertAsc_sorted (k : String → Int) (x : String) (l : List String)
    (h : l.Pairwise (fun a b => k a ≤ k b)) :
    (insertAsc k x l).Pairwise (fun a b => k a ≤ k b) := by
  induction l with
  | nil => simp [insertAsc]
  | cons y ys ih =>
    rcases List.pairwise_cons.mp h with ⟨hy, hys⟩
    by_cases hxy : k x ≤ k y
    · simp only [insertAsc, if_pos hxy]
      refine List.pairwise_cons.mpr ⟨?_, h⟩
      intro b hb
      rcases List.mem_cons.mp hb with rfl | hb
      · exact hxy
      · exact le_trans hxy (hy b hb)
    · simp only [insertAsc, if_neg hxy]
      refine List.pairwise_cons.mpr ⟨?_, ih hys⟩
      intro b hb
      rcases List.mem_cons.mp ((insertAsc_perm k x ys).mem_iff.mp hb) with rfl | hb
      · exact le_of_not_le hxy
      · exact hy b hb

theorem sortAscK_sorted (k : String → Int) (l : List String) :
    (sortAscK k l).Pairwise (fun a b => k a ≤ k b) := by
  induction l with
  | nil => simp [sortAscK]
  | cons x xs ih => exact insertAsc_sorted k x _ ih

theorem insertAsc_filter (k : String → Int) (x : String) (l : List String) (c : Int) :
    (insertAsc k x l).filter (fun y => decide (k y = c)) =
      if k x = c then x :: l.filter (fun y => decide (k y = c))
      else l.filter (fun y => decide (k y = c)) := by
  induction l with
  | nil => by_cases h : k x = c <;> simp [insertAsc, h]
  | cons y ys ih =>
    by_cases hxy : k x ≤ k y
    · simp only [insertAsc, if_pos hxy]
      by_cases h : k x = c <;> simp [List.filter_cons, h]
    · simp only [insertAsc, if_neg hxy, List.filter_cons]
      by_cases h : k x = c
      · have hyc : ¬(k y = c) := fun hyc => hxy (le_of_eq (h.trans hyc.symm))
        simp [h, hyc, ih, List.filter_cons]
      · by_cases hy : k y = c <;> simp [h, hy, ih, List.filter_cons]

theorem sortAscK_filter (k : String → Int) (l : List String) (c : Int) :
    (sortAscK k l).filter (fun y => decide (k y = c)) =
      l.filter (fun y => decide (k y = c)) := by
  induction l with
  | nil => rfl
  | cons x xs ih =>
    show (insertAsc k x (sortAscK k xs)).filter _ = _
    rw [insertAsc_filter]
    by_cases h : k x = c <;> simp [h, ih, List.filter_cons]

theorem sorted_stable_eq (k : String → Int) :
    ∀ (o1 o2 : List String),
      o1.Pairwise (fun a b => k a ≤ k b) → o2.Pairwise (fun a b => k a ≤ k b) →
      (∀ c, o1.filter (fun y => decide (k y = c)) = o2.filter (fun y => decide (k y = c))) →
      o1 = o2 := by
  intro o1
  induction o1 with
  | nil =>
    intro o2 _ _ hf
    cases o2 with
    | nil => rfl
    | cons b t2 =>
      exfalso
      have h2 := hf (k b)
      simp [List.filter_cons] at h2
  | cons a t1 ih =>
    intro o2 h1 h2 hf
    cases o2 with
    | nil =>
      exfalso
      have h2 := hf (k a)
      simp [List.filter_cons] at h2
    | cons b t2 =>
      have hmin1 : ∀ x ∈ a :: t1, k a ≤ k x := by
        intro x hx
        rcases List.mem_cons.mp hx with rfl | hx
        · exact le_refl _
        · exact (List.pairwise_cons.mp h1).1 x hx
      have hmin2 : ∀ x ∈ b :: t2, k b ≤ k x := by
        intro x hx
        rcases List.mem_cons.mp hx with rfl | hx
        · exact le_refl _
        · exact (List.pairwise_cons.mp h2).1 x hx
      have hab : k a = k b := by
        have hb1 : b ∈ a :: t1 := by
          have := hf (k b)
          have hbmem : b ∈ (b :: t2).filter (fun y => decide (k y = k b)) := by
            simp [List.filter_cons]
          rw [← this] at hbmem
          exact (List.mem_filter.mp hbmem).1
        have ha2 : a ∈ b :: t2 := by
          have := hf (k a)
          have hamem : a ∈ (a :: t1).filter (fun y => decide (k y = k a)) := by
            simp [List.filter_cons]
          rw [this] at hamem
          exact (List.mem_filter.mp hamem).1
        exact le_antisymm (hmin1 b hb1) (hmin2 a ha2)
      have hfa := hf (k a)
      rw [List.filter_cons, List.filter_cons, if_pos (by simp), if_pos (by simp [hab.symm])] at hfa
      have hb : a = b := (List.cons.injEq _ _ _ _ ▸ hfa).1
      have htail : t1.filter (fun y => decide (k y = k a)) = t2.filter (fun y => decide (k y = k a)) :=
        (List.cons.injEq _ _ _ _ ▸ hfa).2
      have hft : ∀ c, t1.filter (fun y => decide (k y = c)) = t2.filter (fun y => decide (k y = c)) := by
        intro c
        by_cases hc : c = k a
        · rw [hc]
          exact htail
        · have h3 := hf c
          rw [List.filter_cons, List.filter_cons,
            if_neg (by simp; exact fun h4 => hc h4.symm),
            if_neg (by simp; exact fun h4 => hc (hab ▸ h4.symm))] at h3
          exact h3
      rw [hb, ih t2 (List.pairwise_cons.mp h1).2 (List.pairwise_cons.mp h2).2 hft]

theorem filter_key_neg (k : String → Int) (m : List String) (c : Int) :
    m.filter (fun y => decide (-(k y) = -c)) = m.filter (fun y => decide (k y = c)) := by
  apply List.filter_congr
  intro y _
  exact decide_eq_decide.mpr neg_inj

theorem sortDescK_perm (k : String → Int) (l : List String) : (sortDescK k l).Perm l :=
  sortAscK_perm (fun x => -(k x)) l

theorem sortDescK_sorted (k : String → Int) (l : List String) :
    (sortDescK k l).Pairwise (fun a b => k b ≤ k a) :=
  (sortAscK_sorted (fun x => -(k x)) l).imp (fun h => by omega)

theorem sortDescK_filter (k : String → Int) (l : List String) (c : Int) :
    (sortDescK k l).filter (fun y => decide (k y = c)) =
      l.filter (fun y => decide (k y = c)) := by
  have h := sortAscK_filter (fun x => -(k x)) l (-c)
  rw [filter_key_neg, filter_key_neg] at h
  exact h

theorem sortAscK_isStable : IsStableAscSort sortAscK :=
  fun k l => ⟨sortAscK_sorted k l, sortAscK_filter k l⟩

theorem sortDescK_isStable : IsStableDescSort sortDescK :=
  fun k l => ⟨sortDescK_sorted k l, sortDescK_filter k l⟩

theorem stableAsc_eq_sortAscK (f : SortFn) (hf : IsStableAscSort f)
    (k : String → Int) (l : List String) : f k l = sortAscK k l :=
  sorted_stable_eq k _ _ (hf k l).1 (sortAscK_sorted k l)
    (fun c => ((hf k l).2 c).trans (sortAscK_filter k l c).symm)

theorem stableDesc_eq_sortDescK (f : SortFn) (hf : IsStableDescSort f)
    (k : String → Int) (l : List String) : f k l = sortDescK k l := by
  apply sorted_stable_eq (fun x => -(k x))
  · exact ((hf k l).1).imp (fun h => by omega)
  · exact sortAscK_sorted (fun x => -(k x)) l
  · intro c
    rw [show (fun y => decide (-(k y) = c)) = (fun y => decide (k y = -c)) from
      funext fun y => decide_eq_decide.mpr (by omega)]
    exact ((hf k l).2 (-c)).trans (sortDescK_filter k l (-c)).symm

/-- Claim C9. The planner is deterministic: any ascending stable sort for
the worker ranking and any descending stable sort for the station ordering
produce the very same run as the reference sorts — the stable sorts fix every
tie, so equal inputs give equal outputs. -/
theorem distribute_deterministic_stable_sorts (f g : SortFn)
    (hf : IsStableAscSort f) (hg : IsStableDescSort g)
    (selected : List String) (needs : String → Int)
    (histories : String → List (String × Nat)) (employees : List (String × String))
    (flManual today : String) (st : PlanState) :
    distributeRunW f g selected needs histories employees flManual today st
      = distributeRun selected needs histories employees flManual today st := by
  have hfe : f = sortAscK := funext fun k => funext fun l => stableAsc_eq_sortAscK f hf k l
  have hge : g = sortDescK := funext fun k => funext fun l => stableDesc_eq_sortDescK g hg k l
  rw [hfe, hge]
  rfl

/-- Claim C5. The planner processes exactly the non-`FL` stations of
positive need, in descending order of need with ties kept in original station
list order; with needs `Plock:1, Pack:3` and a pool of three workers, `Pack`
is filled completely and `Plock` starves. -/
theorem station_order_desc_need (needs : String → Int) :
    (∀ s, s ∈ sortedStationsFor needs ↔ (s ∈ STATIONS ∧ s ≠ "FL" ∧ 0 < needs s))
    ∧ (sortedStationsFor needs).Pairwise (fun a b => needs b ≤ needs a)
    ∧ (∀ c, (sortedStationsFor needs).filter (fun s => decide (needs s = c))
          = ((STATIONS.filter (fun s => !(s == "FL"))).filter
              (fun s => decide (0 < needs s))).filter (fun s => decide (needs s = c)))
    ∧ ((distributePlacements ["w1", "w2", "w3"] needsStarve (fun _ => []) []).countP
          (fun a => a.station == "Pack") = 3
        ∧ (distributePlacements ["w1", "w2", "w3"] needsStarve (fun _ => []) []).countP
          (fun a => a.station == "Plock") = 0) := by
  refine ⟨?_, ?_, ?_, by decide, by decide⟩
  · intro s
    rw [show sortedStationsFor needs = sortDescK (fun s => needs s)
        ((STATIONS.filter (fun s => !(s == "FL"))).filter (fun s => decide (0 < needs s)))
      from rfl]
    rw [(sortDescK_perm _ _).mem_iff]
    simp [List.mem_filter]
    tauto
  · exact sortDescK_sorted _ _
  · exact sortDescK_filter _ _

/-- Claim C4. For each station the planner processes, the candidate list is
the still-unassigned pool ranked ascending by the worker's history count at
that station (missing entry counts 0), ties kept in original selection order
(stability), the first `needed` (or fewer) are taken, and the taken workers
are removed from every later pool. -/
theorem worker_ranking_per_station (needs : String → Int)
    (histories : String → List (String × Nat)) (employees : List (String × String))
    (selected assigned : List String) (acc : List Assignment) (station : String) :
    (availableFor histories selected assigned station).Pairwise
        (fun a b => histKey histories station a ≤ histKey histories station b)
    ∧ (∀ c, (availableFor histories selected assigned station).filter
          (fun id => decide (histKey histories station id = c))
        = (selected.filter (fun id => !(assigned.contains id))).filter
          (fun id => decide (histKey histories station id = c)))
    ∧ (availableFor histories selected assigned station).Perm
        (selected.filter (fun id => !(assigned.contains id)))
    ∧ ((availableFor histories selected assigned station).take (needs station).toNat).length
        = min (needs station).toNat (availableFor histories selected assigned station).length
    ∧ distStepW sortAscK selected needs histories employees (acc, assigned) station
        = (acc ++ ((availableFor histories selected assigned station).take
              (needs station).toNat).map (mkAssign employees station),
           assigned ++ (availableFor histories selected assigned station).take
              (needs station).toNat)
    ∧ (∀ id ∈ (availableFor histories selected assigned station).take (needs station).toNat,
        ∀ s2, id ∉ availableFor histories selected
          (assigned ++ (availableFor histories selected assigned station).take
            (needs station).toNat) s2) := by
  refine ⟨sortAscK_sorted _ _, sortAscK_filter _ _, sortAscK_perm _ _, List.length_take _ _,
    rfl, ?_⟩
  intro id hid s2 hmem
  have h1 : id ∈ assigned ++ (availableFor histories selected assigned station).take
      (needs station).toNat := List.mem_append_right _ hid
  have h2 := (sortAscK_perm (histKey histories s2)
      (selected.filter (fun i =>
        !((assigned ++ (availableFor histories selected assigned station).take
            (needs station).toNat).contains i)))).mem_iff.mp hmem
  have h3 := (List.mem_filter.mp h2).2
  simp at h3
  rcases List.mem_append.mp h1 with h | h
  · exact h3.1 h
  · exact h3.2 h

/-! ### Planner fold lemmas -/

theorem countP_mapped_station_ne (employees : List (String × String)) (c s : String)
    (hcs : c ≠ s) (ids : List String) :
    (ids.map (mkAssign employees c)).countP (fun a => a.station == s) = 0 := by
  rw [List.countP_eq_zero]
  intro a ha
  rcases List.mem_map.mp ha with ⟨id, _, rfl⟩
  simp [mkAssign]
  exact hcs

theorem countP_mapped_station_self (employees : List (String × String)) (c : String)
    (ids : List String) :
    (ids.map (mkAssign employees c)).countP (fun a => a.station == c) = ids.length := by
  rw [← List.length_map ids (mkAssign employees c)]
  rw [List.countP_eq_length]
  intro a ha
  rcases List.mem_map.mp ha with ⟨id, _, rfl⟩
  simp [mkAssign]

theorem distFold_count_notmem (selected : List String) (needs : String → Int)
    (histories : String → List (String × Nat)) (employees : List (String × String))
    (s : String) :
    ∀ (L : List String) (acc : List Assignment) (assigned : List String), s ∉ L →
      ((L.foldl (distStepW sortAscK selected needs histories employees) (acc, assigned)).1.countP
          (fun a => a.station == s))
        = acc.countP (fun a => a.station == s) := by
  intro L
  induction L with
  | nil => intro acc assigned _; rfl
  | cons c L2 ih =>
    intro acc assigned hs
    rw [List.foldl_cons]
    have hsc : s ≠ c := fun h => hs (h ▸ List.mem_cons_self c L2)
    rw [ih _ _ (fun h => hs (List.mem_cons_of_mem c h))]
    show ((acc ++ ((availableForW sortAscK histories selected assigned c).take
        (needs c).toNat).map (mkAssign employees c)).countP (fun a => a.station == s)) = _
    rw [List.countP_append, countP_mapped_station_ne employees c s (fun h => hsc h.symm),
      Nat.add_zero]

theorem distFold_count_le (selected : List String) (needs : String → Int)
    (histories : String → List (String × Nat)) (employees : List (String × String))
    (s : String) :
    ∀ (L : List String) (acc : List Assignment) (assigned : List String), L.Nodup →
      ((L.foldl (distStepW sortAscK selected needs histories employees) (acc, assigned)).1.countP
          (fun a => a.station == s))
        ≤ acc.countP (fun a => a.station == s) + (needs s).toNat := by
  intro L
  induction L with
  | nil => intro acc assigned _; exact Nat.le_add_right _ _
  | cons c L2 ih =>
    intro acc assigned hnd
    rw [List.foldl_cons]
    by_cases hcs : s = c
    · subst hcs
      rw [distFold_count_notmem selected needs histories employees s L2 _ _
        (List.nodup_cons.mp hnd).1]
      show ((acc ++ ((availableForW sortAscK histories selected assigned s).take
          (needs s).toNat).map (mkAssign employees s)).countP (fun a => a.station == s)) ≤ _
      rw [List.countP_append, countP_mapped_station_self]
      have := List.length_take_le (needs s).toNat
        (availableForW sortAscK histories selected assigned s)
      omega
    · have hstep : ((distStepW sortAscK selected needs histories employees (acc, assigned) c).1.countP
          (fun a => a.station == s)) = acc.countP (fun a => a.station == s) := by
        show ((acc ++ ((availableForW sortAscK histories selected assigned c).take
            (needs c).toNat).map (mkAssign employees c)).countP (fun a => a.station == s)) = _
        rw [List.countP_append, countP_mapped_station_ne employees c s (fun h => hcs h.symm),
          Nat.add_zero]
      calc ((L2.foldl (distStepW sortAscK selected needs histories employees)
            (distStepW sortAscK selected needs histories employees (acc, assigned) c)).1.countP
            (fun a => a.station == s))
          ≤ (distStepW sortAscK selected needs histories employees (acc, assigned) c).1.countP
              (fun a => a.station == s) + (needs s).toNat := by
            have h2 := ih (distStepW sortAscK selected needs histories employees (acc, assigned) c).1
              (distStepW sortAscK selected needs histories employees (acc, assigned) c).2
              (List.nodup_cons.mp hnd).2
            exact h2
        _ = acc.countP (fun a => a.station == s) + (needs s).toNat := by rw [hstep]

/-- Claim C7. A single planner run never places more than `needed(s)`
workers at any station `s`, for every needs snapshot, selection and history
map. -/
theorem never_exceeds_need (selected : List String) (needs : String → Int)
    (histories : String → List (String × Nat)) (employees : List (String × String))
    (s : String) :
    (distributePlacements selected needs histories employees).countP
      (fun a => a.station == s) ≤ (needs s).toNat := by
  have hnd : (sortedStationsFor needs).Nodup := by
    have h0 : ((STATIONS.filter (fun x => !(x == "FL"))).filter
        (fun x => decide (0 < needs x))).Nodup :=
      ((by decide : STATIONS.Nodup).filter _).filter _
    exact ((sortDescK_perm _ _).nodup_iff).mpr h0
  have h := distFold_count_le selected needs histories employees s (sortedStationsFor needs)
    [] [] hnd
  simpa using h

theorem distFold_ids (selected : List String) (needs : String → Int)
    (histories : String → List (String × Nat)) (employees : List (String × String)) :
    ∀ (L : List String) (acc : List Assignment) (assigned : List String),
      acc.map (fun a => a.employeeId) = assigned →
      ((L.foldl (distStepW sortAscK selected needs histories employees) (acc, assigned)).1.map
          (fun a => a.employeeId))
        = (L.foldl (distStepW sortAscK selected needs histories employees) (acc, assigned)).2 := by
  intro L
  induction L with
  | nil => intro acc assigned h; exact h
  | cons c L2 ih =>
    intro acc assigned h
    rw [List.foldl_cons]
    apply ih
    show ((acc ++ ((availableForW sortAscK histories selected assigned c).take
        (needs c).toNat).map (mkAssign employees c)).map (fun a => a.employeeId))
      = assigned ++ (availableForW sortAscK histories selected assigned c).take (needs c).toNat
    rw [List.map_append, h, List.map_map,
      show ((fun a => a.employeeId) ∘ mkAssign employees c) = fun id => id from
        funext fun id => rfl,
      List.map_id']

theorem distFold_assigned_nodup (selected : List String) (needs : String → Int)
    (histories : String → List (String × Nat)) (employees : List (String × String))
    (hsel : selected.Nodup) :
    ∀ (L : List String) (acc : List Assignment) (assigned : List String), assigned.Nodup →
      ((L.foldl (distStepW sortAscK selected needs histories employees) (acc, assigned)).2).Nodup := by
  intro L
  induction L with
  | nil => intro acc assigned h; exact h
  | cons c L2 ih =>
    intro acc assigned h
    rw [List.foldl_cons]
    apply ih
    show (assigned ++ (availableForW sortAscK histories selected assigned c).take
        (needs c).toNat).Nodup
    rw [List.nodup_append]
    refine ⟨h, ?_, ?_⟩
    · exact ((List.take_sublist _ _).nodup
        (((sortAscK_perm _ _).nodup_iff).mpr (hsel.filter _)))
    · intro a ha hb
      have h2 := (sortAscK_perm _ _).mem_iff.mp (List.mem_of_mem_take hb)
      have h3 := (List.mem_filter.mp h2).2
      simp at h3
      exact h3 ha

theorem distributePlacements_ids_nodup (selected : List String) (needs : String → Int)
    (histories : String → List (String × Nat)) (employees : List (String × String))
    (hsel : selected.Nodup) :
    ((distributePlacements selected needs histories employees).map
      (fun a => a.employeeId)).Nodup := by
  have h1 := distFold_ids selected needs histories employees (sortedStationsFor needs) [] []
    rfl
  have h2 := distFold_assigned_nodup selected needs histories employees hsel
    (sortedStationsFor needs) [] [] List.nodup_nil
  rw [show distributePlacements selected needs histories employees
      = ((sortedStationsFor needs).foldl
          (distStepW sortAscK selected needs histories employees) ([], [])).1 from rfl]
  rw [h1]
  exact h2

theorem realCount_le_one_of_ids_nodup (l : List Assignment)
    (h : (l.map (fun a => a.employeeId)).Nodup) (id : String) :
    realCount l id ≤ 1 := by
  have h1 : realCount l id ≤ l.countP (fun a => a.employeeId == id) := by
    apply List.countP_mono_left
    intro a _ hpa
    simp only [Bool.and_eq_true] at hpa
    exact hpa.1
  have h2 : l.countP (fun a => a.employeeId == id)
      = (l.map (fun a => a.employeeId)).count id := by
    rw [List.count, List.countP_map]
    rfl
  have h3 : (l.map (fun a => a.employeeId)).count id ≤ 1 :=
    List.nodup_iff_count_le_one.mp h id
  omega

theorem mem_eq_of_length_le_one {α : Type} {l : List α} (h : l.length ≤ 1)
    {x y : α} (hx : x ∈ l) (hy : y ∈ l) : x = y := by
  match l with
  | [] => cases hx
  | [a] =>
    rw [List.mem_singleton.mp hx, List.mem_singleton.mp hy]
  | a :: b :: t => simp at h

/-- Claim C6. A planner run over a duplicate-free selection places each
worker id in at most one snapshot entry (the `FL` free-text entry is exempt),
and a move of an entry of the snapshot (from a non-`FL` station; the `FL`
card is not draggable) preserves that at-most-one property. -/
theorem at_most_one_assignment :
    (∀ (selected : List String) (needs : String → Int)
        (histories : String → List (String × Nat)) (employees : List (String × String))
        (flManual : String), selected.Nodup →
      atMostOnce (distributeSnapshot selected needs histories employees flManual))
    ∧ (∀ (dragged : Assignment) (toStation : String) (toLane : Option Nat)
        (today : String) (st : PlanState),
      atMostOnce st.assignments → dragged ∈ st.assignments → dragged.station ≠ "FL" →
      atMostOnce (performMoveRun dragged toStation toLane today st).assignments) := by
  constructor
  · intro selected needs histories employees flManual hsel id
    have hplace : realCount (distributePlacements selected needs histories employees) id ≤ 1 :=
      realCount_le_one_of_ids_nodup _
        (distributePlacements_ids_nodup selected needs histories employees hsel) id
    rw [show distributeSnapshot selected needs histories employees flManual
        = (if flManual.trim ≠ "" then
            distributePlacements selected needs histories employees ++
              [{ employeeId := "manual", employeeName := flManual, station := "FL",
                 lane := none }]
          else distributePlacements selected needs histories employees) from rfl]
    by_cases hfl : flManual.trim ≠ ""
    · rw [if_pos hfl, realCount, List.countP_append]
      have hz : List.countP (fun a => a.employeeId == id && !(a.station == "FL"))
          [({ employeeId := "manual", employeeName := flManual, station := "FL",
              lane := none } : Assignment)] = 0 := by
        simp
      rw [hz, Nat.add_zero]
      exact hplace
    · rw [if_neg hfl]
      exact hplace
  · intro dragged toStation toLane today st hA hmem hFL id
    show realCount (st.assignments.filter _ ++ [_]) id ≤ 1
    rw [realCount, List.countP_append]
    by_cases hid : id = dragged.employeeId
    · subst hid
      have hz : (st.assignments.filter (fun a =>
          !(a.employeeId == dragged.employeeId && a.station == dragged.station &&
            decide (a.lane = dragged.lane)))).countP
          (fun a => a.employeeId == dragged.employeeId && !(a.station == "FL")) = 0 := by
        rw [List.countP_filter, List.countP_eq_zero]
        intro a ha hpa
        simp only [Bool.and_eq_true, Bool.not_eq_true', beq_eq_false_iff_ne,
          decide_eq_true_eq, beq_iff_eq] at hpa
        have hpd : dragged ∈ st.assignments.filter
            (fun a => a.employeeId == dragged.employeeId && !(a.station == "FL")) :=
          List.mem_filter.mpr ⟨hmem, by simp [hFL]⟩
        have hpa2 : a ∈ st.assignments.filter
            (fun a => a.employeeId == dragged.employeeId && !(a.station == "FL")) :=
          List.mem_filter.mpr ⟨ha, by simp [hpa.1.1, hpa.1.2]⟩
        have hlen : (st.assignments.filter
            (fun a => a.employeeId == dragged.employeeId && !(a.station == "FL"))).length ≤ 1 := by
          have := hA dragged.employeeId
          rwa [realCount, List.countP_eq_length_filter] at this
        have had : a = dragged := mem_eq_of_length_le_one hlen hpa2 hpd
        rw [had] at hpa
        simp at hpa
      rw [hz, Nat.zero_add]
      exact List.countP_le_length _
    · have hz1 : List.countP (fun a => a.employeeId == id && !(a.station == "FL"))
          [({ dragged with station := toStation, lane := toLane } : Assignment)] = 0 := by
        simp
        intro h
        exact absurd h.symm hid
      rw [hz1, Nat.add_zero]
      have h1 : (st.assignments.filter (fun a =>
          !(a.employeeId == dragged.employeeId && a.station == dragged.station &&
            decide (a.lane = dragged.lane)))).countP
          (fun a => a.employeeId == id && !(a.station == "FL"))
          ≤ st.assignments.countP (fun a => a.employeeId == id && !(a.station == "FL")) := by
        rw [List.countP_filter]
        apply List.countP_mono_left
        intro a _ hpa
        simp only [Bool.and_eq_true] at hpa
        exact hpa.1.1 ▸ (by simp [hpa.1.1, hpa.1.2] : _)
      exact le_trans h1 (hA id)

/-! ### Mirror invariant -/

/-- Claim C1, amended. A move preserves the HistoryRecord/Assignment mirror on
every date, and a planner run establishes the mirror on its date provided no
`work_history` row for that date exists beforehand. (The planner deletes only
`daily_assignments` rows for the date, never `work_history` rows, so without
that proviso stale history rows survive — see the counterexample.) -/
theorem distribute_move_mirror :
    (∀ (selected : List String) (needs : String → Int)
        (histories : String → List (String × Nat)) (employees : List (String × String))
        (flManual today : String) (st : PlanState),
      selected.length ≠ 0 →
      (∀ r ∈ st.db.work_history, r.date ≠ today) →
      mirror (distributeRun selected needs histories employees flManual today st).1.db today)
    ∧ (∀ (dragged : Assignment) (toStation : String) (toLane : Option Nat)
        (today d : String) (st : PlanState),
      mirror st.db d →
      mirror (performMoveRun dragged toStation toLane today st).db d) := by
  constructor
  · intro selected needs histories employees flManual today st hne hh e s l
    have hrun : distributeRun selected needs histories employees flManual today st
        = (⟨distributeSnapshotW sortAscK sortDescK selected needs histories employees flManual,
            ⟨st.db.daily_assignments.filter (fun r => !(r.date == today))
               ++ (distributePlacementsW sortAscK sortDescK selected needs histories
                    employees).map (rowOf today),
             st.db.work_history
               ++ (distributePlacementsW sortAscK sortDescK selected needs histories
                    employees).map (rowOf today)⟩⟩,
           true) := by
      rw [show distributeRun = distributeRunW sortAscK sortDescK from rfl, distributeRunW,
        if_neg (by simpa using hne)]
    rw [hrun]
    constructor
    · intro hmem
      rcases List.mem_append.mp hmem with h2 | h2
      · exact absurd rfl (hh _ h2)
      · exact List.mem_append_right _ h2
    · intro hmem
      rcases List.mem_append.mp hmem with h2 | h2
      · have h3 := (List.mem_filter.mp h2).2
        simp at h3
      · exact List.mem_append_right _ h2
  · intro dragged toStation toLane today d st h e s l
    show (⟨e, s, l, d⟩ : Row) ∈ st.db.work_history.filter _ ++ [_] ↔
      (⟨e, s, l, d⟩ : Row) ∈ st.db.daily_assignments.filter _ ++ [_]
    simp only [List.mem_append, List.mem_filter, List.mem_singleton]
    rw [h e s l]

/-- Claim C1 as stated is false: a second planner run on the same date, with
different needs, leaves a stale `work_history` row (`w` at `Plock`) that no
longer matches any `daily_assignments` row. -/
theorem second_distribute_breaks_mirror :
    ¬ mirror ((distributeRun ["w"] needsPackOnly (fun _ => []) [("w", "W")] "" "D"
        (distributeRun ["w"] needsPlockOnly (fun _ => []) [("w", "W")] "" "D"
          emptyPlan).1).1.db) "D" := by
  intro h
  have h2 := (h "w" "Plock" none).mp (by decide)
  revert h2
  decide

/-! ### Overuse heuristic -/

theorem bumpStation_nonzero (st : String) :
    ∀ (m : List (String × Nat)), (∀ p ∈ m, p.2 ≠ 0) →
      ∀ p ∈ bumpStation m st, p.2 ≠ 0 := by
  intro m
  induction m with
  | nil =>
    intro _ p hp
    rw [List.mem_singleton.mp hp]
    simp [bumpStation]
  | cons q rest ih =>
    intro h p hp
    rw [show bumpStation (q :: rest) st
        = if q.1 = st then (q.1, q.2 + 1) :: rest else (q.1, q.2) :: bumpStation rest st from
      by cases q; rfl] at hp
    by_cases hq : q.1 = st
    · rw [if_pos hq] at hp
      rcases List.mem_cons.mp hp with rfl | hp
      · simp
      · exact h p (List.mem_cons_of_mem q hp)
    · rw [if_neg hq] at hp
      rcases List.mem_cons.mp hp with rfl | hp
      · exact h (q.1, q.2) (by cases q; exact List.mem_cons_self _ _)
      · exact ih (fun r hr => h r (List.mem_cons_of_mem q hr)) p hp

theorem countStations_fold_nonzero :
    ∀ (rows : List String) (m : List (String × Nat)), (∀ p ∈ m, p.2 ≠ 0) →
      ∀ p ∈ rows.foldl bumpStation m, p.2 ≠ 0 := by
  intro rows
  induction rows with
  | nil => intro m h; exact h
  | cons r rest ih =>
    intro m h
    rw [List.foldl_cons]
    exact ih _ (bumpStation_nonzero r m h)

/-- Claim C2, amended. The overuse evaluation warns iff
`count > 1.5 * avg ∧ count > 5` with the average over non-zero entries,
provided every entry of the history map is non-zero — which holds for every
map `getEmployeeHistory` computes (second conjunct): its counting only
creates entries by incrementing. -/
theorem overuse_warn_iff_nonzero_entries :
    (∀ (toStation : String) (hist : List (String × Nat)), (∀ p ∈ hist, p.2 ≠ 0) →
      (overuseWarns toStation hist = true ↔
        ((3 / 2 : ℚ) * avgNonzeroSpec hist < (stationCountOf hist toStation : ℚ)
          ∧ 5 < stationCountOf hist toStation)))
    ∧ (∀ (rows : List String) (p : String × Nat), p ∈ countStations rows → p.2 ≠ 0) := by
  constructor
  · intro toStation hist h
    have hfil : hist.filter (fun p => !(p.2 == 0)) = hist := by
      rw [List.filter_eq_self]
      intro p hp
      simp [h p hp]
    have havg : avgNonzeroSpec hist = avgCount hist := by
      rw [avgNonzeroSpec, hfil]
      rfl
    rw [overuseWarns]
    simp only [Bool.and_eq_true, decide_eq_true_eq]
    rw [havg, mul_comm ((3 : ℚ) / 2) (avgCount hist)]
  · intro rows p hp
    exact countStations_fold_nonzero rows [] (by simp) p hp

/-- Claim C2 as stated is false: on the history map `{A:6, B:0}` the code
counts the zero entry in the average's denominator (avg 3, so 6 > 4.5 warns),
while the claimed zero-excluding rule (avg 6, and 6 is not above 9) says ok. -/
theorem overuse_zero_entry_diverges :
    overuseWarns "A" [("A", 6), ("B", 0)] = true
    ∧ ¬((3 / 2 : ℚ) * avgNonzeroSpec [("A", 6), ("B", 0)]
          < (stationCountOf [("A", 6), ("B", 0)] "A" : ℚ)
        ∧ 5 < stationCountOf [("A", 6), ("B", 0)] "A") := by
  constructor
  · have h1 : stationCountOf [("A", 6), ("B", 0)] "A" = 6 := rfl
    rw [overuseWarns, h1]
    norm_num [avgCount]
  · have h1 : stationCountOf [("A", 6), ("B", 0)] "A" = 6 := rfl
    rw [h1]
    intro hcon
    have h2 : avgNonzeroSpec [("A", 6), ("B", 0)] = 6 := by
      norm_num [avgNonzeroSpec, List.filter_cons]
    rw [h2] at hcon
    norm_num at hcon

/-! ### Rotation guard and the move path -/

theorem overuseWarns_nil (s : String) : overuseWarns s ([] : List (String × Nat)) = false := by
  rw [overuseWarns]
  norm_num [avgCount, stationCountOf, List.lookup]

/-- Claim C3, amended. The predicate `canAssignToStation` itself returns
false exactly when the recorded last station equals the candidate; but the
interactive move path never consults it: `handleDrop` applies every move whose
destination differs from the source position and does not trigger the overuse
warning, with no rotation check. -/
theorem rotation_guard_not_consulted :
    (∀ (w c : String) (m : List (String × Option String)),
      canAssignToStation w c m = false ↔ m.lookup w = some (some c))
    ∧ (∀ (a : Assignment) (hist : List (String × Nat)) (toStation : String)
        (toLane : Option Nat) (today : String) (st : PlanState),
      ¬(a.station = toStation ∧ a.lane = toLane) →
      overuseWarns toStation hist = false →
      (handleDropRun (some a) hist toStation toLane today st).1 = DropOutcome.moved
        ∧ (handleDropRun (some a) hist toStation toLane today st).2
            = performMoveRun a toStation toLane today st) := by
  constructor
  · intro w c m
    rw [canAssignToStation]
    cases hm : m.lookup w with
    | none => simp
    | some o =>
      cases o with
      | none => simp
      | some s => simp
  · intro a hist toStation toLane today st hns hw
    rw [handleDropRun, if_neg hns, hw]
    exact ⟨rfl, rfl⟩

/-- Claim C3 as stated is false: a worker whose recorded last station is
`Pack` (so `canAssignToStation` is false for `Pack`) is nevertheless moved to
`Pack` by `handleDrop`. -/
theorem move_applied_despite_rotation_block :
    canAssignToStation "w" "Pack" [("w", some "Pack")] = false
    ∧ (handleDropRun (some ⟨"w", "W", "Plock", none⟩) [] "Pack" none "D" demoState).1
        = DropOutcome.moved
    ∧ (⟨"w", "W", "Pack", none⟩ : Assignment)
        ∈ (handleDropRun (some ⟨"w", "W", "Plock", none⟩) [] "Pack" none "D"
            demoState).2.assignments := by
  have hd : handleDropRun (some ⟨"w", "W", "Plock", none⟩) [] "Pack" none "D" demoState
      = (DropOutcome.moved,
         performMoveRun ⟨"w", "W", "Plock", none⟩ "Pack" none "D" demoState) := by
    rw [handleDropRun, if_neg (by simp), overuseWarns_nil "Pack"]
    simp
  refine ⟨by decide, ?_, ?_⟩
  · rw [hd]
  · rw [hd]
    decide

/-! ### Empty selection and the single-station worker -/

/-- Claim C8. With an empty selection the planner is rejected before any
mutation: the state (snapshot and both tables) is returned unchanged together
with the failure flag. -/
theorem empty_selection_rejected (selected : List String) (needs : String → Int)
    (histories : String → List (String × Nat)) (employees : List (String × String))
    (flManual today : String) (st : PlanState) (h : selected = []) :
    distributeRun selected needs histories employees flManual today st = (st, false) := by
  subst h
  rfl

/-- Claim C10. A worker whose history map holds exactly one visited station
`s` with a positive count `n` is never warned when moved to `s`: the count
equals the average, and `n > 1.5 * n` cannot hold. -/
theorem single_station_never_warns (s : String) (n : Nat) (h : 0 < n) :
    overuseWarns s [(s, n)] = false := by
  have h1 : stationCountOf [(s, n)] s = n := by
    simp [stationCountOf, List.lookup]
  have h2 : avgCount [(s, n)] = (n : ℚ) := by
    simp [avgCount]
  rw [overuseWarns, h1, h2]
  have h3 : ¬((n : ℚ) * (3 / 2) < (n : ℚ)) := by
    have h4 : (0 : ℚ) ≤ (n : ℚ) := Nat.cast_nonneg n
    nlinarith
  simp [h3]

/-- Witness for the amended C1 at a concrete input: one run from an empty
store yields the mirror. -/
theorem distribute_move_mirror_witness :
    mirror (distributeRun ["w"] needsPlockOnly (fun _ => []) [("w", "W")] "" "D"
      emptyPlan).1.db "D" :=
  distribute_move_mirror.1 ["w"] needsPlockOnly (fun _ => []) [("w", "W")] "" "D" emptyPlan
    (by decide) (fun r hr => absurd hr (List.not_mem_nil r))

/-- Witness for the amended C2 at the spec's own example `{A:10, B:2, C:1}`. -/
theorem overuse_warn_iff_witness :
    overuseWarns "A" [("A", 10), ("B", 2), ("C", 1)] = true ↔
      ((3 / 2 : ℚ) * avgNonzeroSpec [("A", 10), ("B", 2), ("C", 1)]
          < (stationCountOf [("A", 10), ("B", 2), ("C", 1)] "A" : ℚ)
        ∧ 5 < stationCountOf [("A", 10), ("B", 2), ("C", 1)] "A") :=
  overuse_warn_iff_nonzero_entries.1 "A" [("A", 10), ("B", 2), ("C", 1)] (by decide)

/-- Witness for the amended C3 at a concrete drop. -/
theorem rotation_guard_not_consulted_witness :
    (handleDropRun (some ⟨"w", "W", "Plock", none⟩) [] "Pack" none "D" demoState).1
        = DropOutcome.moved
      ∧ (handleDropRun (some ⟨"w", "W", "Plock", none⟩) [] "Pack" none "D" demoState).2
          = performMoveRun ⟨"w", "W", "Plock", none⟩ "Pack" none "D" demoState :=
  rotation_guard_not_consulted.2 ⟨"w", "W", "Plock", none⟩ [] "Pack" none "D" demoState
    (by simp) (overuseWarns_nil "Pack")

/-- Witness for C6 at a concrete planner run. -/
theorem at_most_one_assignment_witness :
    atMostOnce (distributeSnapshot ["w"] needsPlockOnly (fun _ => []) [("w", "W")] "") :=
  at_most_one_assignment.1 ["w"] needsPlockOnly (fun _ => []) [("w", "W")] "" (by decide)

/-- Witness for C8 at a concrete state. -/
theorem empty_selection_rejected_witness :
    distributeRun [] needsPlockOnly (fun _ => []) [] "" "D" emptyPlan = (emptyPlan, false) :=
  empty_selection_rejected [] needsPlockOnly (fun _ => []) [] "" "D" emptyPlan rfl

/-- Witness for C9 at a concrete run. -/
theorem distribute_deterministic_witness :
    distributeRunW sortAscK sortDescK ["w"] needsPlockOnly (fun _ => []) [("w", "W")] "" "D"
        emptyPlan
      = distributeRun ["w"] needsPlockOnly (fun _ => []) [("w", "W")] "" "D" emptyPlan :=
  distribute_deterministic_stable_sorts sortAscK sortDescK sortAscK_isStable sortDescK_isStable
    ["w"] needsPlockOnly (fun _ => []) [("w", "W")] "" "D" emptyPlan

/-- Witness for C10 at `n = 3`. -/
theorem single_station_never_warns_witness :
    overuseWarns "Plock" [("Plock", 3)] = false :=
  single_station_never_warns "Plock" 3 (by decide)

end StationMaster
